import Mathlib

/-
  Verification development for the weighted least-squares estimation core of
  Tudat (Tudat/Mathematics/BasicMathematics/linearAlgebra.cpp, namespace
  tudat::linear_algebra).

  Modelling conventions:
  * Matrices (Eigen::MatrixXd) are dimensioned dense values over ℚ (exact
    arithmetic in place of double); vectors (Eigen::VectorXd) are lists of ℚ.
  * Eigen enforces size preconditions by assertion (process abort in debug
    builds, undefined behaviour otherwise); an operation whose sizes do not
    agree therefore has no defined result.  Such operations are Option-valued
    here: `none` is the absence of a defined result, `some r` a returned value.
  * The SVD factorization (Eigen::JacobiSVD) is an external collaborator; it
    is modelled as an abstract backend supplying the ordered singular values
    and the least-squares solve.  std::pow, used only by the polynomial-fit
    adapter, is likewise passed in as an abstract real-power function.
  * Warnings/errors written to std::cerr are modelled as a returned list of
    Diagnostic values (the diagnostic sink).
-/

/-- A dense vector (Eigen::VectorXd), over ℚ. -/
abbrev Vec : Type := List ℚ

/-- A dense matrix (Eigen::MatrixXd): explicit dimensions plus row-major
entries.  The dimension fields model Eigen's stored row/column counts. -/
structure Mat where
  rows : Nat
  cols : Nat
  data : List (List ℚ)
deriving DecidableEq

/-- Well-formedness of a matrix value: the entry lists actually have the
advertised dimensions. -/
def Mat.WF (A : Mat) : Prop :=
  A.data.length = A.rows ∧ ∀ row ∈ A.data, row.length = A.cols

instance (A : Mat) : Decidable (Mat.WF A) :=
  decidable_of_iff (A.data.length = A.rows ∧ ∀ row ∈ A.data, row.length = A.cols) Iff.rfl

/-- Elementwise product of two vectors (Eigen cwiseProduct; Eigen asserts that
the sizes agree). -/
def cwiseProduct (v w : Vec) : Option Vec :=
  if v.length = w.length then some (List.zipWith (fun a b => a * b) v w) else none

/-- Dot product of two lists of rationals. -/
def dot (v w : Vec) : ℚ := (List.zipWith (fun a b => a * b) v w).sum

/-- Column j of row-major matrix data. -/
def colData (d : List (List ℚ)) (j : Nat) : Vec := d.map (fun row => row.getD j 0)

/-- Matrix transpose. -/
def Mat.transpose (A : Mat) : Mat :=
  ⟨A.cols, A.rows, (List.range A.cols).map (fun j => colData A.data j)⟩

/-- Matrix product of the underlying data (entry (i,j) is the dot product of
row i of A with column j of B). -/
def Mat.mulRaw (A B : Mat) : Mat :=
  ⟨A.rows, B.cols,
    A.data.map (fun row => (List.range B.cols).map (fun j => dot row (colData B.data j)))⟩

/-- Matrix product; Eigen asserts cols(A) = rows(B). -/
def Mat.mul (A B : Mat) : Option Mat :=
  if A.cols = B.rows then some (Mat.mulRaw A B) else none

/-- Matrix-vector product; Eigen asserts cols(A) = length(v). -/
def Mat.mulVec (A : Mat) (v : Vec) : Option Vec :=
  if A.cols = v.length then some (A.data.map (fun row => dot row v)) else none

/-- Entrywise sum of the underlying data. -/
def Mat.addRaw (A B : Mat) : Mat :=
  ⟨A.rows, A.cols, List.zipWith (List.zipWith (fun a b => a + b)) A.data B.data⟩

/-- Matrix sum; Eigen asserts that the dimensions agree. -/
def Mat.add (A B : Mat) : Option Mat :=
  if A.rows = B.rows ∧ A.cols = B.cols then some (Mat.addRaw A B) else none

/-- The r × c zero matrix (Eigen::MatrixXd::Zero). -/
def Mat.zeroMat (r c : Nat) : Mat := ⟨r, c, List.replicate r (List.replicate c 0)⟩

/-- diag(w) as a full square matrix.  Used only to state the specification
formulas N = P0inv + Hᵀ·diag(w)·H and S = Pnoise·(diag(w)·H)ᵀ; the source
never materializes it. -/
def diagMat (w : Vec) : Mat :=
  ⟨w.length, w.length,
    (List.range w.length).map (fun i =>
      (List.range w.length).map (fun j => if j = i then w.getD i 0 else 0))⟩

/-- Laplace-expansion determinant of row-major data, with an explicit fuel
argument (always instantiated with the matrix size) keeping the recursion
structural so that concrete instances evaluate by kernel reduction. -/
def detDataAux : Nat → List (List ℚ) → ℚ
  | _, [] => 1
  | 0, _ :: _ => 1
  | fuel + 1, r :: rest =>
      ((List.range r.length).map (fun j =>
        (-1 : ℚ) ^ j * r.getD j 0 *
          detDataAux fuel (rest.map (fun row => row.eraseIdx j)))).sum

/-- Determinant of square row-major data. -/
def detData (d : List (List ℚ)) : ℚ := detDataAux d.length d

/-- Adjugate (transposed cofactor) matrix of square row-major data. -/
def adjugateData (d : List (List ℚ)) : List (List ℚ) :=
  (List.range d.length).map (fun i =>
    (List.range d.length).map (fun j =>
      (-1 : ℚ) ^ (i + j) * detData ((d.eraseIdx j).map (fun row => row.eraseIdx i))))

/-- Inverse data: adjugate divided by the determinant.  Models Eigen's
MatrixXd::inverse(), which performs NO singularity check: for a singular
matrix Eigen silently returns meaningless (non-finite) entries; in the exact
model the division by the zero determinant yields the (equally meaningless)
junk value 0 per entry.  In both cases a matrix is returned and no error is
raised. -/
def invData (d : List (List ℚ)) : List (List ℚ) :=
  (adjugateData d).map (fun row => row.map (fun a => a / detData d))

/-- Matrix inverse; Eigen requires a square matrix, and never fails on a
singular one (see invData). -/
def Mat.inverse (A : Mat) : Option Mat :=
  if A.rows = A.cols then some ⟨A.rows, A.cols, invData A.data⟩ else none

/-- The SVD collaborator (Eigen::JacobiSVD), external to the repository: it
supplies the ordered singular values of a matrix and the SVD least-squares
solve.  The estimation core is parametric in this backend. -/
structure SvdBackend where
  singularValues : Mat → List ℚ
  solve : Mat → Vec → Vec

/-- Diagnostics written to std::cerr by the source, modelled as values sent to
a diagnostic sink. -/
inductive Diagnostic where
  /-- "Warning when performing least squares, condition number is <value>" -/
  | conditionNumberWarning (value : ℚ)
  /-- "Error when doing least squares polynomial fit, size of dependent and
  independent variable vectors is not equal" -/
  | polynomialFitSizeMismatch
deriving DecidableEq

/-- getConditionNumberOfDecomposedMatrix: ratio of the first (largest) to the
last (smallest) singular value of a decomposition. -/
def getConditionNumberOfDecomposedMatrix (singularValues : List ℚ) : ℚ :=
  singularValues.getD 0 0 / singularValues.getD (singularValues.length - 1) 0

/-- solveSystemOfEquationsWithSvd: decompose the matrix, optionally warn when
the condition number exceeds the allowed maximum, and return the SVD solution
of A·x = b together with the emitted diagnostics.  Eigen's svd.solve asserts
rows(A) = length(b). -/
def solveSystemOfEquationsWithSvd (B : SvdBackend) (matrixToInvert : Mat)
    (rightHandSideVector : Vec) (checkConditionNumber : Bool)
    (maximumAllowedConditionNumber : ℚ) : Option (Vec × List Diagnostic) :=
  if matrixToInvert.rows = rightHandSideVector.length then
    let conditionNumber := getConditionNumberOfDecomposedMatrix (B.singularValues matrixToInvert)
    let warnings :=
      if checkConditionNumber then
        if conditionNumber > maximumAllowedConditionNumber then
          [Diagnostic.conditionNumberWarning conditionNumber]
        else []
      else []
    some (B.solve matrixToInvert rightHandSideVector, warnings)
  else none

/-- multiplyInformationMatrixByDiagonalWeightMatrix: starting from a zero
matrix of the same size, the source overwrites each column i with the
cwiseProduct of column i of H and the weight vector.  When cols(H) = 0 the
loop body never runs and the rows(H) × 0 zero matrix is returned whatever the
length of w; when cols(H) > 0 the per-column cwiseProduct asserts
length(w) = rows(H), and on success entry (i, j) is H(i, j) * w(i), i.e. row i
of H scaled by w(i).  There is no explicit dimension check in the source. -/
def multiplyInformationMatrixByDiagonalWeightMatrix (informationMatrix : Mat)
    (diagonalOfWeightMatrix : Vec) : Option Mat :=
  if informationMatrix.cols = 0 then
    some (Mat.zeroMat informationMatrix.rows 0)
  else if diagonalOfWeightMatrix.length = informationMatrix.rows then
    some ⟨informationMatrix.rows, informationMatrix.cols,
      List.zipWith (fun wi row => row.map (fun a => a * wi))
        diagonalOfWeightMatrix informationMatrix.data⟩
  else none

/-- calculateInverseOfUpdatedCovarianceMatrix (three-argument overload):
P0inv + Hᵀ · (weighted information matrix). -/
def calculateInverseOfUpdatedCovarianceMatrix (informationMatrix : Mat)
    (diagonalOfWeightMatrix : Vec) (inverseOfAPrioriCovarianceMatrix : Mat) : Option Mat :=
  (multiplyInformationMatrixByDiagonalWeightMatrix informationMatrix
      diagonalOfWeightMatrix).bind fun weighted =>
    (Mat.mul (Mat.transpose informationMatrix) weighted).bind fun product =>
      Mat.add inverseOfAPrioriCovarianceMatrix product

/-- calculateInverseOfUpdatedCovarianceMatrix (two-argument overload): the
three-argument overload with a cols(H) × cols(H) zero prior. -/
def calculateInverseOfUpdatedCovarianceMatrixNoPrior (informationMatrix : Mat)
    (diagonalOfWeightMatrix : Vec) : Option Mat :=
  calculateInverseOfUpdatedCovarianceMatrix informationMatrix diagonalOfWeightMatrix
    (Mat.zeroMat informationMatrix.cols informationMatrix.cols)

/-- calculateCovarianceMatrixWithConsiderParameters: invert the updated
inverse covariance (no singularity check, see Mat.inverse), form the
sensitivity matrix, and inflate the covariance by the propagated consider
covariance. -/
def calculateCovarianceMatrixWithConsiderParameters (informationMatrix : Mat)
    (diagonalOfWeightMatrix : Vec) (inverseOfAPrioriCovarianceMatrix : Mat)
    (considerInformationMatrix : Mat) (considerCovarianceMatrix : Mat) : Option Mat :=
  (calculateInverseOfUpdatedCovarianceMatrix informationMatrix
      diagonalOfWeightMatrix inverseOfAPrioriCovarianceMatrix).bind fun inverseCovariance =>
    (Mat.inverse inverseCovariance).bind fun noiseOnlyCovariance =>
      (multiplyInformationMatrixByDiagonalWeightMatrix informationMatrix
          diagonalOfWeightMatrix).bind fun weighted =>
        (Mat.mul noiseOnlyCovariance (Mat.transpose weighted)).bind fun auxiliaryMatrix =>
          (Mat.mul auxiliaryMatrix considerInformationMatrix).bind fun afterConsider =>
            (Mat.mul afterConsider considerCovarianceMatrix).bind fun afterCovariance =>
              (Mat.mul (Mat.transpose considerInformationMatrix)
                  (Mat.transpose auxiliaryMatrix)).bind fun rightFactor =>
                (Mat.mul afterCovariance rightFactor).bind fun inflation =>
                  Mat.add noiseOnlyCovariance inflation

/-- performLeastSquaresAdjustmentFromInformationMatrix (full overload, lines
196-211 of the source): right-hand side Hᵀ·(w ⊙ r), inverse covariance from
calculateInverseOfUpdatedCovarianceMatrix, solution from
solveSystemOfEquationsWithSvd.  The aPrioriAdjustmentEstimate parameter is
accepted but never read by the body. -/
def performLeastSquaresAdjustmentFromInformationMatrix (B : SvdBackend)
    (informationMatrix : Mat) (observationResiduals : Vec)
    (diagonalOfWeightMatrix : Vec) (inverseOfAPrioriCovarianceMatrix : Mat)
    (aPrioriAdjustmentEstimate : Vec) (checkConditionNumber : Bool)
    (maximumAllowedConditionNumber : ℚ) : Option ((Vec × Mat) × List Diagnostic) :=
  (cwiseProduct diagonalOfWeightMatrix observationResiduals).bind fun weightedResiduals =>
    (Mat.mulVec (Mat.transpose informationMatrix) weightedResiduals).bind fun rightHandSide =>
      (calculateInverseOfUpdatedCovarianceMatrix informationMatrix
          diagonalOfWeightMatrix inverseOfAPrioriCovarianceMatrix).bind
        fun inverseOfCovarianceMatrix =>
          (solveSystemOfEquationsWithSvd B inverseOfCovarianceMatrix rightHandSide
              checkConditionNumber maximumAllowedConditionNumber).bind fun solved =>
            some ((solved.1, inverseOfCovarianceMatrix), solved.2)

/-- performLeastSquaresAdjustmentFromInformationMatrix (overload without a
prior, lines 213-224): delegates with a cols(H) × cols(H) zero a-priori
inverse covariance and a zero a-priori adjustment estimate. -/
def performLeastSquaresAdjustmentFromInformationMatrixNoPrior (B : SvdBackend)
    (informationMatrix : Mat) (observationResiduals : Vec) (diagonalOfWeightMatrix : Vec)
    (checkConditionNumber : Bool) (maximumAllowedConditionNumber : ℚ) :
    Option ((Vec × Mat) × List Diagnostic) :=
  performLeastSquaresAdjustmentFromInformationMatrix B informationMatrix observationResiduals
    diagonalOfWeightMatrix
    (Mat.zeroMat informationMatrix.cols informationMatrix.cols)
    (List.replicate observationResiduals.length 0)
    checkConditionNumber maximumAllowedConditionNumber

/-- performLeastSquaresAdjustmentFromInformationMatrix (overload without
weights, lines 226-235): delegates with an all-ones weight vector. -/
def performLeastSquaresAdjustmentFromInformationMatrixUnweighted (B : SvdBackend)
    (informationMatrix : Mat) (observationResiduals : Vec)
    (checkConditionNumber : Bool) (maximumAllowedConditionNumber : ℚ) :
    Option ((Vec × Mat) × List Diagnostic) :=
  performLeastSquaresAdjustmentFromInformationMatrixNoPrior B informationMatrix
    observationResiduals (List.replicate observationResiduals.length 1)
    checkConditionNumber maximumAllowedConditionNumber

/-- getLeastSquaresPolynomialFit (lines 237-258): when the sample vectors have
unequal length the source only PRINTS an error to std::cerr and continues.
The partial-derivative matrix has rows(y) rows; the fill loop runs over the
rows of x, so when x is longer than y it writes out of range (Eigen assertion,
no defined result), and when x is shorter the remaining rows stay zero and a
fit is still returned.  Entry (i, j) is pow(x(i), p(j)); the fit is the first
component of the unweighted adjustment, with the source's default condition
check (true) and maximum allowed condition number (1.0E8). -/
def getLeastSquaresPolynomialFit (B : SvdBackend) (pw : ℚ → ℚ → ℚ)
    (independentValues dependentValues : Vec) (polynomialPowers : List ℚ) :
    Option (Vec × List Diagnostic) :=
  let mismatchDiagnostics :=
    if independentValues.length ≠ dependentValues.length then
      [Diagnostic.polynomialFitSizeMismatch]
    else []
  if dependentValues.length < independentValues.length then none
  else
    let partialMatrix : Mat :=
      ⟨dependentValues.length, polynomialPowers.length,
        (List.range dependentValues.length).map (fun i =>
          if i < independentValues.length then
            polynomialPowers.map (fun p => pw (independentValues.getD i 0) p)
          else List.replicate polynomialPowers.length 0)⟩
    (performLeastSquaresAdjustmentFromInformationMatrixUnweighted B partialMatrix
        dependentValues true 100000000).map
      (fun result => (result.1.1, mismatchDiagnostics ++ result.2))

/-- A concrete backend instance (used to instantiate backend-parametric
theorems on concrete inputs). -/
def trivialSvdBackend : SvdBackend := ⟨fun _ => [1], fun _ b => b⟩

/-- A concrete stand-in for std::pow on rationals: exact power for natural
exponents, junk elsewhere (used only to instantiate theorems). -/
def ratPowModel (a p : ℚ) : ℚ := a ^ p.num.toNat

/-- Guard-discharge form of Mat.mul. -/
theorem Mat.mul_of_eq {A B : Mat} (h : A.cols = B.rows) : Mat.mul A B = some (Mat.mulRaw A B) := by
  simp [Mat.mul, h]

/-- Guard-discharge form of Mat.add. -/
theorem Mat.add_of_eq {A B : Mat} (h1 : A.rows = B.rows) (h2 : A.cols = B.cols) :
    Mat.add A B = some (Mat.addRaw A B) := by
  simp [Mat.add, h1, h2]

/-- Guard-discharge form of Mat.mulVec. -/
theorem Mat.mulVec_of_eq {A : Mat} {v : Vec} (h : A.cols = v.length) :
    Mat.mulVec A v = some (A.data.map (fun row => dot row v)) := by
  simp [Mat.mulVec, h]

/-- Guard-discharge form of Mat.inverse. -/
theorem Mat.inverse_of_square {A : Mat} (h : A.rows = A.cols) :
    Mat.inverse A = some ⟨A.rows, A.cols, invData A.data⟩ := by
  simp [Mat.inverse, h]

theorem Mat.transpose_rows (A : Mat) : A.transpose.rows = A.cols := rfl

theorem Mat.transpose_cols (A : Mat) : A.transpose.cols = A.rows := rfl

theorem Mat.transpose_data_length (A : Mat) : A.transpose.data.length = A.cols := by
  simp [Mat.transpose]

/-- The result of a successful weighting has the dimensions of H. -/
theorem multiplyInformationMatrix_fields {H : Mat} {w : Vec} {X : Mat}
    (h : multiplyInformationMatrixByDiagonalWeightMatrix H w = some X) :
    X.rows = H.rows ∧ X.cols = H.cols := by
  unfold multiplyInformationMatrixByDiagonalWeightMatrix at h
  by_cases hc : H.cols = 0
  · rw [if_pos hc] at h
    cases h
    exact ⟨rfl, hc.symm⟩
  · rw [if_neg hc] at h
    by_cases hw : w.length = H.rows
    · rw [if_pos hw] at h
      cases h
      exact ⟨rfl, rfl⟩
    · rw [if_neg hw] at h
      cases h

/-- The weighting succeeds whenever the weight vector has one entry per row. -/
theorem multiplyInformationMatrix_some (H : Mat) (w : Vec) (hw : w.length = H.rows) :
    ∃ X, multiplyInformationMatrixByDiagonalWeightMatrix H w = some X := by
  unfold multiplyInformationMatrixByDiagonalWeightMatrix
  by_cases hc : H.cols = 0
  · exact ⟨_, by rw [if_pos hc]⟩
  · exact ⟨_, by rw [if_neg hc, if_pos hw]⟩

/-- C4: for A and b of compatible dimensions, solveSystemOfEquationsWithSvd
always returns the backend's SVD solution of A·x = b (never an error for
ill-conditioning), emitting exactly one condition-number warning when the
check is enabled and the condition number exceeds the allowed maximum, and no
warning when the check is disabled. -/
theorem c4_solveSystemOfEquationsWithSvd_spec (B : SvdBackend) (A : Mat) (b : Vec)
    (check : Bool) (maxCond : ℚ) (hdim : A.rows = b.length) :
    solveSystemOfEquationsWithSvd B A b check maxCond =
      some (B.solve A b,
        if check = true ∧
            getConditionNumberOfDecomposedMatrix (B.singularValues A) > maxCond then
          [Diagnostic.conditionNumberWarning
            (getConditionNumberOfDecomposedMatrix (B.singularValues A))]
        else []) := by
  unfold solveSystemOfEquationsWithSvd
  rw [if_pos hdim]
  cases check with
  | false => simp
  | true =>
    by_cases h : getConditionNumberOfDecomposedMatrix (B.singularValues A) > maxCond
    · simp [h]
    · simp [h]

theorem c4_witness :
    (Mat.mk 1 1 [[1]]).rows = [(1 : ℚ)].length ∧
    solveSystemOfEquationsWithSvd trivialSvdBackend (Mat.mk 1 1 [[1]]) [1] true 0 =
      some (trivialSvdBackend.solve (Mat.mk 1 1 [[1]]) [1],
        if true = true ∧
            getConditionNumberOfDecomposedMatrix
              (trivialSvdBackend.singularValues (Mat.mk 1 1 [[1]])) > 0 then
          [Diagnostic.conditionNumberWarning
            (getConditionNumberOfDecomposedMatrix
              (trivialSvdBackend.singularValues (Mat.mk 1 1 [[1]])))]
        else []) :=
  ⟨rfl, c4_solveSystemOfEquationsWithSvd_spec trivialSvdBackend (Mat.mk 1 1 [[1]]) [1] true 0 rfl⟩

/-- C6: the overload without a prior equals the full overload at a
cols(H) × cols(H) zero a-priori inverse covariance (for any a-priori
adjustment estimate), and the overload without weights equals the weighted
overload at an all-ones weight vector of the residuals' length. -/
theorem c6_overload_equivalence (B : SvdBackend) (H : Mat) (r w apriori : Vec)
    (check : Bool) (maxCond : ℚ) :
    performLeastSquaresAdjustmentFromInformationMatrixNoPrior B H r w check maxCond =
      performLeastSquaresAdjustmentFromInformationMatrix B H r w
        (Mat.zeroMat H.cols H.cols) apriori check maxCond ∧
    performLeastSquaresAdjustmentFromInformationMatrixUnweighted B H r check maxCond =
      performLeastSquaresAdjustmentFromInformationMatrixNoPrior B H r
        (List.replicate r.length 1) check maxCond :=
  ⟨rfl, rfl⟩

/-- C10: the full overload's result does not depend on the
aPrioriAdjustmentEstimate argument: any two values give identical output. -/
theorem c10_aPrioriAdjustmentEstimate_unused (B : SvdBackend) (H : Mat) (r w : Vec)
    (P0inv : Mat) (v1 v2 : Vec) (check : Bool) (maxCond : ℚ) :
    performLeastSquaresAdjustmentFromInformationMatrix B H r w P0inv v1 check maxCond =
      performLeastSquaresAdjustmentFromInformationMatrix B H r w P0inv v2 check maxCond :=
  rfl

/-- C3 (amended): for a well-formed H, a weight vector with one entry per row
yields H with row i scaled by w(i); a mismatched weight vector has no defined
result only when cols(H) > 0 (Eigen's cwiseProduct size assertion) — when
cols(H) = 0 the mismatch is silently accepted (see the counterexample), and no
DimensionMismatch check of the function's own exists. -/
theorem c3_multiplyInformationMatrix_spec (H : Mat) (w : Vec) (hWF : H.WF) :
    (w.length = H.rows →
      multiplyInformationMatrixByDiagonalWeightMatrix H w =
        some ⟨H.rows, H.cols,
          List.zipWith (fun wi row => row.map (fun a => a * wi)) w H.data⟩) ∧
    (w.length ≠ H.rows → 0 < H.cols →
      multiplyInformationMatrixByDiagonalWeightMatrix H w = none) := by
  constructor
  · intro hw
    unfold multiplyInformationMatrixByDiagonalWeightMatrix
    by_cases hc : H.cols = 0
    · rw [if_pos hc]
      congr 1
      unfold Mat.zeroMat
      rw [Mat.mk.injEq]
      refine ⟨rfl, hc.symm, ?_⟩
      apply List.ext_getElem
      · simp [hw, hWF.1]
      · intro i h1 h2
        have hi : i < H.data.length := by
          simp only [List.length_zipWith] at h2
          omega
        have hrow : H.data[i].length = 0 := by
          rw [hWF.2 _ (List.getElem_mem hi), hc]
        simp only [List.getElem_replicate, List.getElem_zipWith]
        rw [List.length_eq_zero.mp hrow]
        simp
    · rw [if_neg hc, if_pos hw]
  · intro hne hpos
    unfold multiplyInformationMatrixByDiagonalWeightMatrix
    rw [if_neg (by omega), if_neg hne]

/-- C3's counterexample: a 2 × 0 information matrix with a length-1 weight
vector (mismatched) is accepted without any error and the 2 × 0 zero matrix is
returned. -/
theorem c3_counterexample :
    [(1 : ℚ)].length ≠ (Mat.mk 2 0 [[], []]).rows ∧
    multiplyInformationMatrixByDiagonalWeightMatrix (Mat.mk 2 0 [[], []]) [(1 : ℚ)] =
      some (Mat.zeroMat 2 0) :=
  ⟨by decide, rfl⟩

theorem c3_witness :
    (Mat.mk 1 1 [[2]]).WF ∧
    (([(3 : ℚ)].length = (Mat.mk 1 1 [[2]]).rows →
      multiplyInformationMatrixByDiagonalWeightMatrix (Mat.mk 1 1 [[2]]) [(3 : ℚ)] =
        some ⟨(Mat.mk 1 1 [[2]]).rows, (Mat.mk 1 1 [[2]]).cols,
          List.zipWith (fun wi row => row.map (fun a => a * wi)) [(3 : ℚ)]
            (Mat.mk 1 1 [[2]]).data⟩) ∧
    ([(3 : ℚ)].length ≠ (Mat.mk 1 1 [[2]]).rows → 0 < (Mat.mk 1 1 [[2]]).cols →
      multiplyInformationMatrixByDiagonalWeightMatrix (Mat.mk 1 1 [[2]]) [(3 : ℚ)] = none)) :=
  ⟨by decide, c3_multiplyInformationMatrix_spec (Mat.mk 1 1 [[2]]) [(3 : ℚ)] (by decide)⟩

/-- C9: at mismatched sample lengths (independent [0], dependent [1, 2]) the
polynomial fit emits the size-mismatch diagnostic yet still returns a fitted
coefficient vector computed from the zero-padded partial-derivative matrix,
instead of failing with no result. -/
theorem c9_polynomialFit_returns_despite_mismatch :
    getLeastSquaresPolynomialFit trivialSvdBackend ratPowModel [0] [1, 2] [1] =
      some ([0], [Diagnostic.polynomialFitSizeMismatch]) := by
  norm_num [getLeastSquaresPolynomialFit,
    performLeastSquaresAdjustmentFromInformationMatrixUnweighted,
    performLeastSquaresAdjustmentFromInformationMatrixNoPrior,
    performLeastSquaresAdjustmentFromInformationMatrix,
    calculateInverseOfUpdatedCovarianceMatrix,
    multiplyInformationMatrixByDiagonalWeightMatrix,
    solveSystemOfEquationsWithSvd, getConditionNumberOfDecomposedMatrix,
    cwiseProduct, Mat.mul, Mat.mulRaw, Mat.mulVec, Mat.add, Mat.addRaw,
    Mat.transpose, Mat.zeroMat, colData, dot, diagMat, List.range_succ,
    List.replicate_succ, trivialSvdBackend, ratPowModel]

/-- C2's counterexample: H = [[1]], w = [0], zero prior make the updated
inverse covariance the singular matrix [[0]], yet
calculateCovarianceMatrixWithConsiderParameters raises no error and returns a
matrix. -/
theorem c2_counterexample :
    calculateInverseOfUpdatedCovarianceMatrix (Mat.mk 1 1 [[1]]) [0] (Mat.zeroMat 1 1) =
      some (Mat.mk 1 1 [[0]]) ∧
    detData (Mat.mk 1 1 [[0]]).data = 0 ∧
    calculateCovarianceMatrixWithConsiderParameters (Mat.mk 1 1 [[1]]) [0]
      (Mat.zeroMat 1 1) (Mat.mk 1 1 [[1]]) (Mat.mk 1 1 [[1]]) =
      some (Mat.mk 1 1 [[0]]) := by
  refine ⟨?_, ?_, ?_⟩ <;>
    norm_num [calculateCovarianceMatrixWithConsiderParameters,
      calculateInverseOfUpdatedCovarianceMatrix,
      multiplyInformationMatrixByDiagonalWeightMatrix,
      Mat.inverse, invData, adjugateData, detData, detDataAux,
      Mat.mul, Mat.mulRaw, Mat.add, Mat.addRaw, Mat.transpose, Mat.zeroMat,
      colData, dot, List.range_succ]

theorem dot_cons_cons (a b : ℚ) (v w : Vec) :
    dot (a :: v) (b :: w) = a * b + dot v w := by
  simp [dot]

theorem dot_replicate_zero : ∀ (n : Nat) (v : Vec), dot (List.replicate n 0) v = 0 := by
  intro n
  induction n with
  | zero => intro v; rfl
  | succ m ih =>
    intro v
    cases v with
    | nil => simp [dot]
    | cons a t =>
      rw [List.replicate_succ, dot_cons_cons, ih]
      ring

/-- Dot product with a one-hot row: picks out entry i scaled by c. -/
theorem dot_indicator (c : ℚ) :
    ∀ (v : Vec) (n i : Nat), v.length = n → i < n →
      dot ((List.range n).map (fun k => if k = i then c else 0)) v = c * v.getD i 0 := by
  intro v
  induction v with
  | nil =>
    intro n i hn hi
    subst hn
    simp at hi
  | cons a t ih =>
    intro n i hn hi
    cases n with
    | zero => simp at hi
    | succ m =>
      have ht : t.length = m := by simpa using hn
      rw [List.range_succ_eq_map, List.map_cons, List.map_map]
      cases i with
      | zero =>
        have hz : (List.map ((fun k => if k = 0 then c else 0) ∘ Nat.succ)
            (List.range m)) = List.replicate m 0 := by
          apply List.eq_replicate_iff.mpr
          refine ⟨by simp, ?_⟩
          intro b hb
          simp only [List.mem_map, Function.comp] at hb
          obtain ⟨k, _, hk⟩ := hb
          simpa using hk.symm
        rw [hz, if_pos rfl, dot_cons_cons, dot_replicate_zero]
        simp
      | succ j =>
        have hcomp : ((fun k => if k = j + 1 then c else 0) ∘ Nat.succ) =
            (fun k => if k = j then c else 0) := by
          funext k
          simp [Function.comp]
        rw [hcomp, if_neg (by omega), dot_cons_cons, ih m j ht (by omega)]
        simp

/-- The specification formula diag(w)·H equals the source's row-scaling
function (for a well-formed H with one weight per row). -/
theorem diagMat_mul (H : Mat) (w : Vec) (hWF : H.WF) (hw : w.length = H.rows) :
    Mat.mul (diagMat w) H = multiplyInformationMatrixByDiagonalWeightMatrix H w := by
  obtain ⟨hlen, hrows⟩ := hWF
  rw [Mat.mul_of_eq (by simp [diagMat, hw])]
  unfold multiplyInformationMatrixByDiagonalWeightMatrix
  by_cases hc : H.cols = 0
  · rw [if_pos hc]
    unfold Mat.mulRaw diagMat Mat.zeroMat
    rw [Option.some.injEq, Mat.mk.injEq]
    refine ⟨by simp [hw], by simp [hc], ?_⟩
    rw [hc]
    simp only [List.range_zero, List.map_nil, List.map_map]
    apply List.eq_replicate_iff.mpr
    refine ⟨by simp [hw], ?_⟩
    intro b hb
    simp only [List.mem_map, Function.comp] at hb
    obtain ⟨k, _, hk⟩ := hb
    simp [← hk]
  · rw [if_neg hc, if_pos hw]
    unfold Mat.mulRaw diagMat
    rw [Option.some.injEq, Mat.mk.injEq]
    refine ⟨by simp [hw], rfl, ?_⟩
    simp only [List.map_map]
    apply List.ext_getElem
    · simp [hw, hlen]
    · intro i h1 h2
      have hiw : i < w.length := by simpa using h1
      have hid : i < H.data.length := by
        simp only [List.length_zipWith] at h2
        omega
      simp only [List.getElem_map, List.getElem_range, List.getElem_zipWith, Function.comp]
      apply List.ext_getElem
      · simp [hrows _ (List.getElem_mem hid)]
      · intro j hj1 hj2
        have hcol : (colData H.data j).length = w.length := by
          simp [colData, hlen, hw]
        simp only [List.getElem_map, List.getElem_range]
        rw [dot_indicator (w.getD i 0) (colData H.data j) w.length i hcol hiw]
        have hone : (colData H.data j).getD i 0 = H.data[i].getD j 0 := by
          rw [colData, List.getD_eq_getElem?_getD, List.getElem?_eq_getElem (by simpa using hid),
            List.getElem_map, Option.getD_some]
        rw [hone]
        have hjlt : j < H.data[i].length := by simpa using hj2
        rw [List.getD_eq_getElem?_getD w, List.getElem?_eq_getElem hiw,
          List.getD_eq_getElem?_getD, List.getElem?_eq_getElem hjlt]
        simp [mul_comm]

theorem zipWith_add_zero_row : ∀ (m : Nat) (v : Vec), v.length = m →
    List.zipWith (fun a b => a + b) (List.replicate m 0) v = v := by
  intro m
  induction m with
  | zero =>
    intro v hv
    rw [List.length_eq_zero.mp hv]
    rfl
  | succ k ih =>
    intro v hv
    cases v with
    | nil => simp at hv
    | cons a t =>
      rw [List.replicate_succ, List.zipWith_cons_cons, ih t (by simpa using hv)]
      simp

theorem zipWith_add_zero_data : ∀ (n : Nat) (m : Nat) (d : List (List ℚ)),
    d.length = n → (∀ row ∈ d, row.length = m) →
    List.zipWith (List.zipWith (fun a b => a + b))
      (List.replicate n (List.replicate m 0)) d = d := by
  intro n
  induction n with
  | zero =>
    intro m d hd _
    rw [List.length_eq_zero.mp hd]
    rfl
  | succ k ih =>
    intro m d hd hm
    cases d with
    | nil => simp at hd
    | cons row rest =>
      rw [List.replicate_succ, List.zipWith_cons_cons,
        zipWith_add_zero_row m row (hm row (List.mem_cons_self row rest)),
        ih m rest (by simpa using hd) (fun r hr => hm r (List.mem_cons_of_mem _ hr))]

theorem mulRaw_data_length (A B : Mat) :
    (Mat.mulRaw A B).data.length = A.data.length := by
  simp [Mat.mulRaw]

theorem mulRaw_data_row_length (A B : Mat) :
    ∀ row ∈ (Mat.mulRaw A B).data, row.length = B.cols := by
  intro row hrow
  simp only [Mat.mulRaw, List.mem_map] at hrow
  obtain ⟨r0, _, hr0⟩ := hrow
  rw [← hr0]
  simp

/-- C7: the a-priori inverse covariance fuses additively: the three-argument
overload equals the prior plus the zero-prior (two-argument) overload, for all
inputs (including ill-dimensioned ones, where both sides have no result). -/
theorem c7_aprioriFusion_additive (H : Mat) (w : Vec) (P0inv : Mat) :
    calculateInverseOfUpdatedCovarianceMatrix H w P0inv =
      (calculateInverseOfUpdatedCovarianceMatrixNoPrior H w).bind
        (fun noPrior => Mat.add P0inv noPrior) := by
  unfold calculateInverseOfUpdatedCovarianceMatrixNoPrior
    calculateInverseOfUpdatedCovarianceMatrix
  cases hX : multiplyInformationMatrixByDiagonalWeightMatrix H w with
  | none => simp
  | some X =>
    obtain ⟨hXr, hXc⟩ := multiplyInformationMatrix_fields hX
    simp only [Option.some_bind]
    rw [Mat.mul_of_eq (by rw [Mat.transpose_cols, hXr])]
    simp only [Option.some_bind]
    have hzero : Mat.add (Mat.zeroMat H.cols H.cols) (Mat.mulRaw (Mat.transpose H) X) =
        some (Mat.mulRaw (Mat.transpose H) X) := by
      rw [Mat.add_of_eq
        (show (Mat.zeroMat H.cols H.cols).rows = (Mat.mulRaw (Mat.transpose H) X).rows from rfl)
        hXc.symm]
      congr 1
      unfold Mat.addRaw
      rw [Mat.mk.injEq]
      refine ⟨rfl, hXc.symm, ?_⟩
      show List.zipWith _ (Mat.zeroMat H.cols H.cols).data _ = _
      unfold Mat.zeroMat
      apply zipWith_add_zero_data
      · rw [mulRaw_data_length, Mat.transpose_data_length]
      · intro row hrow
        rw [mulRaw_data_row_length _ _ row hrow, hXc]
    rw [hzero]
    simp only [Option.some_bind]

/-- Normal form of calculateInverseOfUpdatedCovarianceMatrix when weighting
succeeds and the prior has matching dimensions. -/
theorem calculateInverseOfUpdatedCovarianceMatrix_eq (H : Mat) (w : Vec) (P0 : Mat) {X : Mat}
    (hX : multiplyInformationMatrixByDiagonalWeightMatrix H w = some X)
    (hr : P0.rows = H.cols) (hc : P0.cols = H.cols) :
    calculateInverseOfUpdatedCovarianceMatrix H w P0 =
      some (Mat.addRaw P0 (Mat.mulRaw (Mat.transpose H) X)) := by
  obtain ⟨hXr, hXc⟩ := multiplyInformationMatrix_fields hX
  unfold calculateInverseOfUpdatedCovarianceMatrix
  rw [hX]
  simp only [Option.some_bind]
  rw [Mat.mul_of_eq (by rw [Mat.transpose_cols, hXr])]
  simp only [Option.some_bind]
  rw [Mat.add_of_eq
    (show P0.rows = (Mat.mulRaw (Mat.transpose H) X).rows from by
      show P0.rows = (Mat.transpose H).rows
      rw [Mat.transpose_rows, hr])
    (show P0.cols = (Mat.mulRaw (Mat.transpose H) X).cols from by
      show P0.cols = X.cols
      rw [hc, hXc])]

/-- The SVD solve step always returns the backend solution when dimensions
agree (warnings existential). -/
theorem solveSystemOfEquationsWithSvd_some (B : SvdBackend) (A : Mat) (b : Vec)
    (check : Bool) (maxCond : ℚ) (hdim : A.rows = b.length) :
    ∃ W, solveSystemOfEquationsWithSvd B A b check maxCond = some (B.solve A b, W) := by
  unfold solveSystemOfEquationsWithSvd
  rw [if_pos hdim]
  exact ⟨_, rfl⟩

/-- C1: the full least-squares adjustment returns the pair (dx, N) with
N = P0inv + Hᵀ·diag(w)·H and dx the backend's SVD least-squares solution of
N·dx = Hᵀ·(w ⊙ r). -/
theorem c1_performLeastSquaresAdjustment_spec (B : SvdBackend) (H : Mat)
    (r w : Vec) (P0inv : Mat) (apriori : Vec) (check : Bool) (maxCond : ℚ)
    (hWF : H.WF) (hw : w.length = H.rows) (hr : r.length = H.rows)
    (hP0r : P0inv.rows = H.cols) (hP0c : P0inv.cols = H.cols) :
    ∃ N g warnings,
      ((Mat.mul (diagMat w) H).bind fun D =>
        (Mat.mul (Mat.transpose H) D).bind fun M => Mat.add P0inv M) = some N ∧
      (cwiseProduct w r).bind (fun wr => Mat.mulVec (Mat.transpose H) wr) = some g ∧
      performLeastSquaresAdjustmentFromInformationMatrix B H r w P0inv apriori
          check maxCond = some ((B.solve N g, N), warnings) := by
  obtain ⟨X, hX⟩ := multiplyInformationMatrix_some H w hw
  obtain ⟨hXr, hXc⟩ := multiplyInformationMatrix_fields hX
  have hN := calculateInverseOfUpdatedCovarianceMatrix_eq H w P0inv hX hP0r hP0c
  have hwr : cwiseProduct w r = some (List.zipWith (fun a b => a * b) w r) := by
    unfold cwiseProduct
    rw [if_pos (by rw [hw, hr])]
  have hlenwr : (List.zipWith (fun a b => a * b) w r).length = H.rows := by
    simp [hw, hr]
  have hg : Mat.mulVec (Mat.transpose H) (List.zipWith (fun a b => a * b) w r) =
      some ((Mat.transpose H).data.map
        (fun row => dot row (List.zipWith (fun a b => a * b) w r))) :=
    Mat.mulVec_of_eq (by rw [Mat.transpose_cols, hlenwr])
  have hdim : (Mat.addRaw P0inv (Mat.mulRaw (Mat.transpose H) X)).rows =
      ((Mat.transpose H).data.map
        (fun row => dot row (List.zipWith (fun a b => a * b) w r))).length := by
    show P0inv.rows = _
    rw [List.length_map, Mat.transpose_data_length, hP0r]
  obtain ⟨W, hS⟩ := solveSystemOfEquationsWithSvd_some B
    (Mat.addRaw P0inv (Mat.mulRaw (Mat.transpose H) X))
    ((Mat.transpose H).data.map (fun row => dot row (List.zipWith (fun a b => a * b) w r)))
    check maxCond hdim
  refine ⟨Mat.addRaw P0inv (Mat.mulRaw (Mat.transpose H) X),
    (Mat.transpose H).data.map (fun row => dot row (List.zipWith (fun a b => a * b) w r)),
    W, ?_, ?_, ?_⟩
  · rw [diagMat_mul H w hWF hw, hX]
    simp only [Option.some_bind]
    rw [Mat.mul_of_eq (by rw [Mat.transpose_cols, hXr])]
    simp only [Option.some_bind]
    rw [Mat.add_of_eq
      (show P0inv.rows = (Mat.mulRaw (Mat.transpose H) X).rows from by
        show P0inv.rows = (Mat.transpose H).rows
        rw [Mat.transpose_rows, hP0r])
      (show P0inv.cols = (Mat.mulRaw (Mat.transpose H) X).cols from by
        show P0inv.cols = X.cols
        rw [hP0c, hXc])]
  · rw [hwr]
    simp only [Option.some_bind]
    exact hg
  · unfold performLeastSquaresAdjustmentFromInformationMatrix
    rw [hwr]
    simp only [Option.some_bind]
    rw [hg]
    simp only [Option.some_bind]
    rw [hN]
    simp only [Option.some_bind]
    rw [hS]
    simp only [Option.some_bind]

theorem c1_witness :
    (Mat.mk 1 1 [[1]]).WF ∧
    [(1 : ℚ)].length = (Mat.mk 1 1 [[1]]).rows ∧
    [(1 : ℚ)].length = (Mat.mk 1 1 [[1]]).rows ∧
    (Mat.zeroMat 1 1).rows = (Mat.mk 1 1 [[1]]).cols ∧
    (Mat.zeroMat 1 1).cols = (Mat.mk 1 1 [[1]]).cols ∧
    (∃ N g warnings,
      ((Mat.mul (diagMat [(1 : ℚ)]) (Mat.mk 1 1 [[1]])).bind fun D =>
        (Mat.mul (Mat.transpose (Mat.mk 1 1 [[1]])) D).bind fun M =>
          Mat.add (Mat.zeroMat 1 1) M) = some N ∧
      (cwiseProduct [(1 : ℚ)] [(1 : ℚ)]).bind
        (fun wr => Mat.mulVec (Mat.transpose (Mat.mk 1 1 [[1]])) wr) = some g ∧
      performLeastSquaresAdjustmentFromInformationMatrix trivialSvdBackend
          (Mat.mk 1 1 [[1]]) [(1 : ℚ)] [(1 : ℚ)] (Mat.zeroMat 1 1) [(0 : ℚ)]
          false 0 = some ((trivialSvdBackend.solve N g, N), warnings)) :=
  ⟨by decide, by decide, by decide, by decide, by decide,
    c1_performLeastSquaresAdjustment_spec trivialSvdBackend (Mat.mk 1 1 [[1]])
      [(1 : ℚ)] [(1 : ℚ)] (Mat.zeroMat 1 1) [(0 : ℚ)] false 0
      (by decide) (by decide) (by decide) (by decide) (by decide)⟩

/-- Normal form of calculateCovarianceMatrixWithConsiderParameters under
compatible dimensions: every intermediate product is defined and the returned
matrix is Pnoise + ((Pnoise·Xᵀ)·Hc)·Pc·(Hcᵀ·(Pnoise·Xᵀ)ᵀ), with X the weighted
information matrix.  No invertibility of the updated inverse covariance is
required anywhere: the inversion never fails. -/
theorem considerCovariance_eq (H : Mat) (w : Vec) (P0inv Hc Pc : Mat) {X : Mat}
    (hX : multiplyInformationMatrixByDiagonalWeightMatrix H w = some X)
    (hP0r : P0inv.rows = H.cols) (hP0c : P0inv.cols = H.cols)
    (hHc : Hc.rows = H.rows) (hPcr : Pc.rows = Hc.cols) (hPcc : Pc.cols = Hc.cols) :
    ∃ N Pnoise S result,
      calculateInverseOfUpdatedCovarianceMatrix H w P0inv = some N ∧
      Mat.inverse N = some Pnoise ∧
      Mat.mul Pnoise (Mat.transpose X) = some S ∧
      ((Mat.mul S Hc).bind fun afterConsider =>
        (Mat.mul afterConsider Pc).bind fun afterCovariance =>
          (Mat.mul (Mat.transpose Hc) (Mat.transpose S)).bind fun rightFactor =>
            (Mat.mul afterCovariance rightFactor).bind fun inflation =>
              Mat.add Pnoise inflation) = some result ∧
      calculateCovarianceMatrixWithConsiderParameters H w P0inv Hc Pc = some result := by
  obtain ⟨hXr, hXc⟩ := multiplyInformationMatrix_fields hX
  have hN := calculateInverseOfUpdatedCovarianceMatrix_eq H w P0inv hX hP0r hP0c
  set N := Mat.addRaw P0inv (Mat.mulRaw (Mat.transpose H) X) with hNdef
  have hNr : N.rows = H.cols := hP0r
  have hNc : N.cols = H.cols := hP0c
  have hInv : Mat.inverse N = some ⟨N.rows, N.cols, invData N.data⟩ :=
    Mat.inverse_of_square (by rw [hNr, hNc])
  set Pnoise := Mat.mk N.rows N.cols (invData N.data) with hPdef
  have hPr : Pnoise.rows = H.cols := hNr
  have hPc2 : Pnoise.cols = H.cols := hNc
  have hS : Mat.mul Pnoise (Mat.transpose X) = some (Mat.mulRaw Pnoise (Mat.transpose X)) :=
    Mat.mul_of_eq (by rw [Mat.transpose_rows]; rw [show Pnoise.cols = N.cols from rfl, hNc, hXc])
  set S := Mat.mulRaw Pnoise (Mat.transpose X) with hSdef
  have hSr : S.rows = H.cols := hPr
  have hSc : S.cols = H.rows := by
    rw [show S.cols = (Mat.transpose X).cols from rfl, Mat.transpose_cols, hXr]
  have hT1 : Mat.mul S Hc = some (Mat.mulRaw S Hc) :=
    Mat.mul_of_eq (by rw [hSc, hHc])
  set T1 := Mat.mulRaw S Hc with hT1def
  have hT2 : Mat.mul T1 Pc = some (Mat.mulRaw T1 Pc) :=
    Mat.mul_of_eq (by rw [show T1.cols = Hc.cols from rfl, hPcr])
  set T2 := Mat.mulRaw T1 Pc with hT2def
  have hT3 : Mat.mul (Mat.transpose Hc) (Mat.transpose S) =
      some (Mat.mulRaw (Mat.transpose Hc) (Mat.transpose S)) :=
    Mat.mul_of_eq (by rw [Mat.transpose_cols, Mat.transpose_rows, hHc, hSc])
  set T3 := Mat.mulRaw (Mat.transpose Hc) (Mat.transpose S) with hT3def
  have hT4 : Mat.mul T2 T3 = some (Mat.mulRaw T2 T3) :=
    Mat.mul_of_eq (by rw [show T2.cols = Pc.cols from rfl, show T3.rows = Hc.cols from rfl, hPcc])
  set T4 := Mat.mulRaw T2 T3 with hT4def
  have hAdd : Mat.add Pnoise T4 = some (Mat.addRaw Pnoise T4) :=
    Mat.add_of_eq
      (show Pnoise.rows = T4.rows from rfl)
      (by rw [show T4.cols = S.rows from rfl, hSr, hPc2])
  refine ⟨N, Pnoise, S, Mat.addRaw Pnoise T4, hN, hInv, hS, ?_, ?_⟩
  · rw [hT1]
    simp only [Option.some_bind]
    rw [hT2]
    simp only [Option.some_bind]
    rw [hT3]
    simp only [Option.some_bind]
    rw [hT4]
    simp only [Option.some_bind]
    exact hAdd
  · unfold calculateCovarianceMatrixWithConsiderParameters
    rw [hN]
    simp only [Option.some_bind]
    rw [hInv]
    simp only [Option.some_bind]
    rw [hX]
    simp only [Option.some_bind]
    rw [hS]
    simp only [Option.some_bind]
    rw [hT1]
    simp only [Option.some_bind]
    rw [hT2]
    simp only [Option.some_bind]
    rw [hT3]
    simp only [Option.some_bind]
    rw [hT4]
    simp only [Option.some_bind]
    exact hAdd

/-- C5: with compatible dimensions and invertible updated inverse covariance
N, the consider-parameter covariance is Pnoise + (S·Hc)·Pc·(Hcᵀ·Sᵀ) with
Pnoise = N⁻¹ and S = Pnoise·(diag(w)·H)ᵀ. -/
theorem c5_considerCovariance_spec (H : Mat) (w : Vec) (P0inv Hc Pc N : Mat)
    (hWF : H.WF) (hw : w.length = H.rows)
    (hP0r : P0inv.rows = H.cols) (hP0c : P0inv.cols = H.cols)
    (hHc : Hc.rows = H.rows) (hPcr : Pc.rows = Hc.cols) (hPcc : Pc.cols = Hc.cols)
    (hN : calculateInverseOfUpdatedCovarianceMatrix H w P0inv = some N)
    (hdet : detData N.data ≠ 0) :
    ∃ Pnoise S result,
      Mat.inverse N = some Pnoise ∧
      ((Mat.mul (diagMat w) H).bind fun D => Mat.mul Pnoise (Mat.transpose D)) = some S ∧
      ((Mat.mul S Hc).bind fun afterConsider =>
        (Mat.mul afterConsider Pc).bind fun afterCovariance =>
          (Mat.mul (Mat.transpose Hc) (Mat.transpose S)).bind fun rightFactor =>
            (Mat.mul afterCovariance rightFactor).bind fun inflation =>
              Mat.add Pnoise inflation) = some result ∧
      calculateCovarianceMatrixWithConsiderParameters H w P0inv Hc Pc = some result := by
  obtain ⟨X, hX⟩ := multiplyInformationMatrix_some H w hw
  obtain ⟨N', Pnoise, S, result, hN', hInv, hS, hchain, hcov⟩ :=
    considerCovariance_eq H w P0inv Hc Pc hX hP0r hP0c hHc hPcr hPcc
  obtain rfl : N' = N := Option.some.inj (hN'.symm.trans hN)
  refine ⟨Pnoise, S, result, hInv, ?_, hchain, hcov⟩
  rw [diagMat_mul H w hWF hw, hX]
  simp only [Option.some_bind]
  exact hS

/-- C2 (amended): under compatible dimensions the consider-parameter
covariance computation ALWAYS returns a matrix, with no singularity check and
no error path: when the updated inverse covariance is singular the entries are
meaningless (non-finite in floating point) but a result is still produced. -/
theorem c2_considerCovariance_never_fails (H : Mat) (w : Vec) (P0inv Hc Pc : Mat)
    (hw : w.length = H.rows) (hP0r : P0inv.rows = H.cols) (hP0c : P0inv.cols = H.cols)
    (hHc : Hc.rows = H.rows) (hPcr : Pc.rows = Hc.cols) (hPcc : Pc.cols = Hc.cols) :
    ∃ M, calculateCovarianceMatrixWithConsiderParameters H w P0inv Hc Pc = some M := by
  obtain ⟨X, hX⟩ := multiplyInformationMatrix_some H w hw
  obtain ⟨N, Pnoise, S, result, hN, hInv, hS, hchain, hcov⟩ :=
    considerCovariance_eq H w P0inv Hc Pc hX hP0r hP0c hHc hPcr hPcc
  exact ⟨result, hcov⟩

theorem c2_witness :
    [(0 : ℚ)].length = (Mat.mk 1 1 [[1]]).rows ∧
    (Mat.zeroMat 1 1).rows = (Mat.mk 1 1 [[1]]).cols ∧
    (Mat.zeroMat 1 1).cols = (Mat.mk 1 1 [[1]]).cols ∧
    (Mat.mk 1 1 [[1]]).rows = (Mat.mk 1 1 [[1]]).rows ∧
    (Mat.mk 1 1 [[1]]).rows = (Mat.mk 1 1 [[1]]).cols ∧
    (Mat.mk 1 1 [[1]]).cols = (Mat.mk 1 1 [[1]]).cols ∧
    (∃ M, calculateCovarianceMatrixWithConsiderParameters (Mat.mk 1 1 [[1]]) [(0 : ℚ)]
      (Mat.zeroMat 1 1) (Mat.mk 1 1 [[1]]) (Mat.mk 1 1 [[1]]) = some M) :=
  ⟨by decide, by decide, by decide, by decide, by decide, by decide,
    c2_considerCovariance_never_fails (Mat.mk 1 1 [[1]]) [(0 : ℚ)] (Mat.zeroMat 1 1)
      (Mat.mk 1 1 [[1]]) (Mat.mk 1 1 [[1]])
      (by decide) (by decide) (by decide) (by decide) (by decide) (by decide)⟩

theorem c5_witness :
    (Mat.mk 1 1 [[1]]).WF ∧
    [(1 : ℚ)].length = (Mat.mk 1 1 [[1]]).rows ∧
    calculateInverseOfUpdatedCovarianceMatrix (Mat.mk 1 1 [[1]]) [(1 : ℚ)]
      (Mat.zeroMat 1 1) = some (Mat.mk 1 1 [[1]]) ∧
    detData (Mat.mk 1 1 [[1]]).data ≠ 0 ∧
    (∃ Pnoise S result,
      Mat.inverse (Mat.mk 1 1 [[1]]) = some Pnoise ∧
      ((Mat.mul (diagMat [(1 : ℚ)]) (Mat.mk 1 1 [[1]])).bind
        fun D => Mat.mul Pnoise (Mat.transpose D)) = some S ∧
      ((Mat.mul S (Mat.mk 1 1 [[1]])).bind fun afterConsider =>
        (Mat.mul afterConsider (Mat.mk 1 1 [[1]])).bind fun afterCovariance =>
          (Mat.mul (Mat.transpose (Mat.mk 1 1 [[1]])) (Mat.transpose S)).bind
            fun rightFactor =>
              (Mat.mul afterCovariance rightFactor).bind fun inflation =>
                Mat.add Pnoise inflation) = some result ∧
      calculateCovarianceMatrixWithConsiderParameters (Mat.mk 1 1 [[1]]) [(1 : ℚ)]
        (Mat.zeroMat 1 1) (Mat.mk 1 1 [[1]]) (Mat.mk 1 1 [[1]]) = some result) :=
  ⟨by decide, by decide,
    by norm_num [calculateInverseOfUpdatedCovarianceMatrix,
      multiplyInformationMatrixByDiagonalWeightMatrix, Mat.mul, Mat.mulRaw,
      Mat.add, Mat.addRaw, Mat.transpose, Mat.zeroMat, colData, dot,
      List.range_succ],
    by norm_num [detData, detDataAux, List.range_succ],
    c5_considerCovariance_spec (Mat.mk 1 1 [[1]]) [(1 : ℚ)] (Mat.zeroMat 1 1)
      (Mat.mk 1 1 [[1]]) (Mat.mk 1 1 [[1]]) (Mat.mk 1 1 [[1]])
      (by decide) (by decide) (by decide) (by decide) (by decide) (by decide) (by decide)
      (by norm_num [calculateInverseOfUpdatedCovarianceMatrix,
        multiplyInformationMatrixByDiagonalWeightMatrix, Mat.mul, Mat.mulRaw,
        Mat.add, Mat.addRaw, Mat.transpose, Mat.zeroMat, colData, dot,
        List.range_succ])
      (by norm_num [detData, detDataAux, List.range_succ])⟩

/-- C8: with equal sample lengths, the polynomial fit is the first component
of the full least-squares adjustment of the matrix with entries
H(i, j) = pow(x(i), p(j)) against y, at unit weights, zero prior, and the
source's default condition policy. -/
theorem c8_polynomialFit_spec (B : SvdBackend) (pw : ℚ → ℚ → ℚ) (x y : Vec)
    (powers : List ℚ) (hlen : x.length = y.length) :
    getLeastSquaresPolynomialFit B pw x y powers =
      Option.map (fun result => (result.1.1, result.2))
        (performLeastSquaresAdjustmentFromInformationMatrix B
          (Mat.mk y.length powers.length
            ((List.range y.length).map (fun i => powers.map (fun p => pw (x.getD i 0) p))))
          y (List.replicate y.length 1)
          (Mat.zeroMat powers.length powers.length)
          (List.replicate y.length 0) true 100000000) := by
  have h3 : (List.range y.length).map (fun i =>
      if i < y.length then powers.map (fun p => pw (x.getD i 0) p)
      else List.replicate powers.length 0) =
      (List.range y.length).map (fun i => powers.map (fun p => pw (x.getD i 0) p)) := by
    apply List.map_congr_left
    intro i hi
    rw [if_pos (List.mem_range.mp hi)]
  simp only [getLeastSquaresPolynomialFit, hlen, lt_self_iff_false, if_false, ne_eq,
    not_true_eq_false, List.nil_append, h3]
  unfold performLeastSquaresAdjustmentFromInformationMatrixUnweighted
    performLeastSquaresAdjustmentFromInformationMatrixNoPrior
  rfl

theorem c8_witness :
    [(1 : ℚ)].length = [(2 : ℚ)].length ∧
    getLeastSquaresPolynomialFit trivialSvdBackend ratPowModel [(1 : ℚ)] [(2 : ℚ)] [(0 : ℚ)] =
      Option.map (fun result => (result.1.1, result.2))
        (performLeastSquaresAdjustmentFromInformationMatrix trivialSvdBackend
          (Mat.mk [(2 : ℚ)].length [(0 : ℚ)].length
            ((List.range [(2 : ℚ)].length).map (fun i =>
              [(0 : ℚ)].map (fun p => ratPowModel ([(1 : ℚ)].getD i 0) p))))
          [(2 : ℚ)] (List.replicate [(2 : ℚ)].length 1)
          (Mat.zeroMat [(0 : ℚ)].length [(0 : ℚ)].length)
          (List.replicate [(2 : ℚ)].length 0) true 100000000) :=
  ⟨by decide,
    c8_polynomialFit_spec trivialSvdBackend ratPowModel [(1 : ℚ)] [(2 : ℚ)] [(0 : ℚ)]
      (by decide)⟩
